import Mathlib

/-!
Shallow embedding of the grid-world game in `src/main.ts` (final revision):
the deterministic token field (`tokenAt`), the sparse override layer
(`takenCells` / `modifiedCells` with `getCellValue` / `setCellValue`),
the proximity-gated interaction state machine (`onCellClick` with
`checkWin`), cell-index movement (`movePlayerCells`), and the
geolocation movement controller's position handler (`handlePosition`).

Positions are rationals (the source uses JS numbers for latitude and
longitude); cell values and indices are integers.  Cells are keyed in
the source by the string `"i,j"`; since that encoding of an integer
pair is injective (decimal integer images contain no comma), keys are
embedded as the pair `(i, j)` itself.
-/

/-- `const CELL = 0.0001` — grid cell size in degrees. -/
def CELL : ℚ := 1 / 10000

/-- `const INTERACT_STEPS = 3` — how many cells away counts as "near". -/
def INTERACT_STEPS : ℤ := 3

/-- `const WIN = 32` — win threshold (`holding >= WIN`). -/
def WIN : ℤ := 32

/-- Modelled from the spec: `luck` (imported from `./_luck.ts`, a file not
present in the sources) — "derive a stable pseudo-random unit value from
the CellId using a deterministic hash/PRNG keyed by `(i,j)`", "stable
`[0,1)`".  Embedded as a concrete deterministic integer hash mapped into
the unit interval.  The source keys it by the string `"i,j"`, which is in
bijection with the pair `(i, j)`. -/
def luck (i j : ℤ) : ℚ :=
  (((i * 73856093 + j * 19349663).natAbs % 1000 : ℕ) : ℚ) / 1000

/-- The threshold classification inside `tokenAt` (src/main.ts:549–555):
`r < 0.15 → 2`, `r < 0.20 → 4`, `r < 0.22 → 8`, otherwise `0`. -/
def tokenClassify (r : ℚ) : ℤ :=
  if r < 15/100 then 2
  else if r < 20/100 then 4
  else if r < 22/100 then 8
  else 0

/-- `tokenAt(i, j)` (src/main.ts:549–555): classify the stable unit-interval
hash of the cell id. -/
def tokenAt (i j : ℤ) : ℤ :=
  tokenClassify (luck i j)

/-- The classification the spec's words describe (for comparison with
`tokenClassify`): cumulative thresholds `[0,0.55)->0`, `[0.55,0.80)->2`,
`[0.80,0.93)->4`, `[0.93,0.985)->8`, `[0.985,1.0)->16`. -/
def specClassify (r : ℚ) : ℤ :=
  if r < 55/100 then 0
  else if r < 80/100 then 2
  else if r < 93/100 then 4
  else if r < 985/1000 then 8
  else 16

/-- `cellKey(i, j)` (src/main.ts:562–564): the source's string key
`"i,j"`, embedded as the integer pair it injectively encodes. -/
def cellKey (i j : ℤ) : ℤ × ℤ :=
  (i, j)

/-- First-match lookup in an association list, the semantics of
`Map.get` over the insertion discipline used below. -/
def lookupKey (k : ℤ × ℤ) : List ((ℤ × ℤ) × ℤ) → Option ℤ
  | [] => none
  | (k', v) :: rest => if k' = k then some v else lookupKey k rest

/-- `Set.add` semantics: add a key unless already present. -/
def addKey (k : ℤ × ℤ) (l : List (ℤ × ℤ)) : List (ℤ × ℤ) :=
  if k ∈ l then l else k :: l

/-- The override layer: `takenCells : Set<string>` and
`modifiedCells : Map<string, number>` (src/main.ts:559–560). -/
structure OverrideStore where
  taken : List (ℤ × ℤ)
  modified : List ((ℤ × ℤ) × ℤ)
deriving DecidableEq

/-- The initial (empty) override state. -/
def initialStore : OverrideStore :=
  { taken := [], modified := [] }

/-- `getCellValue` resolution over a store (src/main.ts:566–571):
Modified wins, then Taken forces 0, otherwise the intrinsic `tokenAt`. -/
def resolve (o : OverrideStore) (i j : ℤ) : ℤ :=
  match lookupKey (cellKey i j) o.modified with
  | some v => v
  | none => if cellKey i j ∈ o.taken then 0 else tokenAt i j

/-- `setCellValue` on the store (src/main.ts:572–581): value ≤ 0 deletes
any Modified entry and adds Taken; a positive value deletes Taken and
sets Modified. -/
def setCellValueO (i j v : ℤ) (o : OverrideStore) : OverrideStore :=
  let key := cellKey i j
  if v ≤ 0 then
    { taken := addKey key o.taken,
      modified := o.modified.filter (fun p => decide (p.1 ≠ key)) }
  else
    { taken := o.taken.filter (fun k => decide (k ≠ key)),
      modified := (key, v) :: o.modified.filter (fun p => decide (p.1 ≠ key)) }

/-- Applying a sequence of `setCellValue` calls `((i,j),v)` in order. -/
def applyOps (ops : List ((ℤ × ℤ) × ℤ)) (o : OverrideStore) : OverrideStore :=
  ops.foldl (fun acc op => setCellValueO op.1.1 op.1.2 op.2 acc) o

/-- The Taken/Modified mutual-exclusion invariant: a key present in the
taken set has no entry in the modified map. -/
def exclusionInv (o : OverrideStore) : Prop :=
  ∀ k, k ∈ o.taken → lookupKey k o.modified = none

/-- `type Player` (src/main.ts:415): position plus the single-slot
inventory (`holding : number | null`). -/
structure Player where
  lat : ℚ
  lng : ℚ
  holding : Option ℤ
deriving DecidableEq

/-- The mutable game state: the player plus the override layer. -/
structure GameState where
  player : Player
  store : OverrideStore
deriving DecidableEq

/-- `toCellId(lat, lng)` (src/main.ts:522–524): floor division by `CELL`
on each axis. -/
def toCellId (lat lng : ℚ) : ℤ × ℤ :=
  (⌊lat / CELL⌋, ⌊lng / CELL⌋)

/-- `cellCenter(i, j)` (src/main.ts:525–527): `((i+0.5)·CELL, (j+0.5)·CELL)`. -/
def cellCenter (i j : ℤ) : ℚ × ℚ :=
  (((i : ℚ) + 1/2) * CELL, ((j : ℚ) + 1/2) * CELL)

/-- `snapToCellCenter(lat, lng)` (src/main.ts:538–545). -/
def snapToCellCenter (lat lng : ℚ) : ℚ × ℚ :=
  let c := toCellId lat lng
  cellCenter c.1 c.2

/-- `playerCellId()` (src/main.ts:585–587). -/
def playerCellId (s : GameState) : ℤ × ℤ :=
  toCellId s.player.lat s.player.lng

/-- `isNearCell(i, j)` (src/main.ts:588–592): both axis distances to the
player's cell are at most `INTERACT_STEPS`. -/
def isNearCell (s : GameState) (i j : ℤ) : Bool :=
  decide (|i - (playerCellId s).1| ≤ INTERACT_STEPS ∧
    |j - (playerCellId s).2| ≤ INTERACT_STEPS)

/-- `getCellValue(i, j)` on the game state (src/main.ts:566–571). -/
def getCellValue (s : GameState) (i j : ℤ) : ℤ :=
  resolve s.store i j

/-- `setCellValue(i, j, value)` on the game state (src/main.ts:572–581);
touches only the override store. -/
def setCellValue (i j v : ℤ) (s : GameState) : GameState :=
  { s with store := setCellValueO i j v s.store }

/-- `onCellClick(i, j)` (src/main.ts:596–631).  The boolean records
whether the win alert fired: `checkWin` (src/main.ts:500–504) is invoked
only in the pickup branch and alerts iff `holding ≠ null ∧ holding ≥ WIN`.
The place and merge branches clear `holding` and do not call `checkWin`;
out-of-range clicks return before reading anything. -/
def onCellClick (s : GameState) (i j : ℤ) : GameState × Bool :=
  if isNearCell s i j then
    let current := getCellValue s i j
    match s.player.holding with
    | none =>
      if 0 < current then
        (setCellValue i j 0
          { s with player := { s.player with holding := some current } },
          decide (WIN ≤ current))
      else (s, false)
    | some h =>
      if current = 0 then
        (setCellValue i j h { s with player := { s.player with holding := none } },
          false)
      else if current = h ∧ 0 < current then
        (setCellValue i j (current * 2)
          { s with player := { s.player with holding := none } },
          false)
      else (s, false)
  else (s, false)

/-- `movePlayerCells(dI, dJ)` (src/main.ts:738–746): step the player's
cell id and re-snap to the new cell's center.  The boolean records
whether the win alert fired: the body calls no `checkWin`/alert, so it is
always `false`. -/
def movePlayerCells (s : GameState) (dI dJ : ℤ) : GameState × Bool :=
  let c := toCellId s.player.lat s.player.lng
  let n := cellCenter (c.1 + dI) (c.2 + dJ)
  ({ s with player := { s.player with lat := n.1, lng := n.2 } }, false)

/-- JS `Math.round`: round half toward positive infinity. -/
def jsRound (x : ℚ) : ℤ :=
  ⌊x + 1/2⌋

/-- The geolocation controller's private state (src/main.ts:313–316):
the last raw reading (`lastLat`/`lastLng`, both initially null) plus the
game state it drives. -/
structure GeoState where
  lastLat : Option ℚ
  lastLng : Option ℚ
  game : GameState
deriving DecidableEq

/-- `GeolocationMovementController.handlePosition` (src/main.ts:342–391):
first fix teleports the player to the snapped reading and stores it;
afterwards the delta from the last stored raw reading is rounded to cell
steps, and only a non-zero step moves the player and updates the stored
reading. -/
def handlePosition (g : GeoState) (lat lng : ℚ) : GeoState :=
  match g.lastLat, g.lastLng with
  | some a, some b =>
    let stepI := jsRound ((lat - a) / CELL)
    let stepJ := jsRound ((lng - b) / CELL)
    if stepI ≠ 0 ∨ stepJ ≠ 0 then
      { lastLat := some lat, lastLng := some lng,
        game := (movePlayerCells g.game stepI stepJ).1 }
    else g
  | _, _ =>
    let c := snapToCellCenter lat lng
    { lastLat := some lat, lastLng := some lng,
      game := { g.game with
        player := { g.game.player with lat := c.1, lng := c.2 } } }

/-- Modelled from the spec: an `OverrideEntry` of the Override Store —
"per CellId, at most one of: Taken (cell forced empty) or
Modified(value)".  The snapshot/restore operations below are likewise
modelled from the spec; no `snapshotEntries`/`restoreEntries` appears in
the sources. -/
inductive OverrideEntry where
  | taken : ℤ × ℤ → OverrideEntry
  | modified : ℤ × ℤ → ℤ → OverrideEntry
deriving DecidableEq

/-- Modelled from the spec: replaying one entry — `recordTaken` "inserts
Taken, removing any prior Modified entry"; `recordModified` "inserts
Modified(value), removing any prior Taken entry". -/
def applyEntry (e : OverrideEntry) (o : OverrideStore) : OverrideStore :=
  match e with
  | .taken k =>
    { taken := addKey k o.taken,
      modified := o.modified.filter (fun p => decide (p.1 ≠ k)) }
  | .modified k v =>
    { taken := o.taken.filter (fun x => decide (x ≠ k)),
      modified := (k, v) :: o.modified.filter (fun p => decide (p.1 ≠ k)) }

/-- Folding a list of entries into a store. -/
def foldEntries (es : List OverrideEntry) (o : OverrideStore) : OverrideStore :=
  es.foldl (fun acc e => applyEntry e acc) o

/-- Modelled from the spec: `snapshotEntries()` — "bulk export … for
persistence", the store's full entry list. -/
def snapshotEntries (o : OverrideStore) : List OverrideEntry :=
  o.taken.map OverrideEntry.taken ++
    o.modified.map (fun p => OverrideEntry.modified p.1 p.2)

/-- Modelled from the spec: `restoreEntries(list)` — "restore must first
clear all existing entries (no merge with prior state)", then replay the
given entries. -/
def restoreEntries (es : List OverrideEntry) : OverrideStore :=
  foldEntries es initialStore

/-- A cell id carrying an override entry in the store. -/
def overriddenKey (o : OverrideStore) (k : ℤ × ℤ) : Prop :=
  k ∈ o.taken ∨ lookupKey k o.modified ≠ none

/-- Evaluating a sequence of intrinsic-value queries, in order — the
call semantics of `tokenAt` in the source, which keeps no cache. -/
def runQueries (qs : List (ℤ × ℤ)) : List ℤ :=
  qs.map (fun q => tokenAt q.1 q.2)


/-- A concrete game state for instantiating the theorems: the player at
the center of cell `(0,0)` holding nothing, cell `(0,0)` modified to `2`. -/
def sampleState : GameState :=
  { player := { lat := 1/20000, lng := 1/20000, holding := none },
    store := { taken := [], modified := [((0, 0), 2)] } }

/-- A concrete override store for instantiating the theorems. -/
def sampleStore : OverrideStore :=
  { taken := [(1, 1)], modified := [((0, 0), 2)] }

/-- A concrete geolocation-controller state with a stored reading at the
origin. -/
def sampleGeo : GeoState :=
  { lastLat := some 0, lastLng := some 0, game := sampleState }

/-! ### Helper lemmas about keys, lookup, and the override layer -/

theorem lookupKey_cons (k pk : ℤ × ℤ) (pv : ℤ) (l : List ((ℤ × ℤ) × ℤ)) :
    lookupKey k ((pk, pv) :: l) = if pk = k then some pv else lookupKey k l := rfl

theorem lookupKey_filter_ne (k k' : ℤ × ℤ) (l : List ((ℤ × ℤ) × ℤ))
    (h : k' ≠ k) :
    lookupKey k' (l.filter (fun p => decide (p.1 ≠ k))) = lookupKey k' l := by
  induction l with
  | nil => rfl
  | cons p rest ih =>
    obtain ⟨pk, pv⟩ := p
    rw [List.filter_cons]
    by_cases hp : pk = k
    · rw [if_neg (by simp [hp]), ih, lookupKey_cons,
        if_neg (fun hc : pk = k' => h (hc ▸ hp ▸ rfl))]
    · rw [if_pos (by simp [hp]), lookupKey_cons, lookupKey_cons]
      by_cases he : pk = k'
      · rw [if_pos he, if_pos he]
      · rw [if_neg he, if_neg he, ih]

theorem lookupKey_filter_self (k : ℤ × ℤ) (l : List ((ℤ × ℤ) × ℤ)) :
    lookupKey k (l.filter (fun p => decide (p.1 ≠ k))) = none := by
  induction l with
  | nil => rfl
  | cons p rest ih =>
    obtain ⟨pk, pv⟩ := p
    rw [List.filter_cons]
    by_cases hp : pk = k
    · rw [if_neg (by simp [hp]), ih]
    · rw [if_pos (by simp [hp]), lookupKey_cons, if_neg hp, ih]

theorem mem_addKey (x k : ℤ × ℤ) (l : List (ℤ × ℤ)) :
    x ∈ addKey k l ↔ x = k ∨ x ∈ l := by
  unfold addKey
  by_cases h : k ∈ l
  · simp only [if_pos h]
    constructor
    · exact fun hx => Or.inr hx
    · rintro (rfl | hx)
      · exact h
      · exact hx
  · simp [if_neg h]

theorem mem_filter_ne (x k : ℤ × ℤ) (l : List (ℤ × ℤ)) :
    x ∈ l.filter (fun y => decide (y ≠ k)) ↔ x ∈ l ∧ x ≠ k := by
  simp [List.mem_filter]

theorem resolve_setCellValueO_same (o : OverrideStore) (i j v : ℤ) :
    resolve (setCellValueO i j v o) i j = if v ≤ 0 then 0 else v := by
  unfold setCellValueO resolve
  by_cases hv : v ≤ 0
  · simp only [if_pos hv, lookupKey_filter_self]
    have hmem : cellKey i j ∈ addKey (cellKey i j) o.taken :=
      (mem_addKey _ _ _).mpr (Or.inl rfl)
    simp [hmem]
  · simp [if_neg hv, lookupKey_cons]

theorem resolve_setCellValueO_other (o : OverrideStore) (i j v i' j' : ℤ)
    (h : (i', j') ≠ (i, j)) :
    resolve (setCellValueO i j v o) i' j' = resolve o i' j' := by
  have hk : cellKey i' j' ≠ cellKey i j := h
  unfold setCellValueO resolve
  by_cases hv : v ≤ 0
  · simp only [if_pos hv, lookupKey_filter_ne _ _ _ hk]
    have hmem : cellKey i' j' ∈ addKey (cellKey i j) o.taken ↔
        cellKey i' j' ∈ o.taken := by
      rw [mem_addKey]
      exact or_iff_right hk
    cases hl : lookupKey (cellKey i' j') o.modified <;> simp [hmem]
  · simp only [if_neg hv]
    have hne : ¬ cellKey i j = cellKey i' j' := fun hc => hk hc.symm
    simp only [lookupKey_cons, if_neg hne, lookupKey_filter_ne _ _ _ hk]
    have hmem : cellKey i' j' ∈ o.taken.filter (fun x => decide (x ≠ cellKey i j)) ↔
        cellKey i' j' ∈ o.taken := by
      rw [mem_filter_ne]
      exact and_iff_left hk
    cases hl : lookupKey (cellKey i' j') o.modified <;> simp [hmem, hk]

theorem setCellValue_player (i j v : ℤ) (s : GameState) :
    (setCellValue i j v s).player = s.player := rfl

theorem getCellValue_setCellValue_same (s : GameState) (i j v : ℤ) :
    getCellValue (setCellValue i j v s) i j = if v ≤ 0 then 0 else v :=
  resolve_setCellValueO_same s.store i j v

theorem getCellValue_setCellValue_other (s : GameState) (i j v i' j' : ℤ)
    (h : (i', j') ≠ (i, j)) :
    getCellValue (setCellValue i j v s) i' j' = getCellValue s i' j' :=
  resolve_setCellValueO_other s.store i j v i' j' h

/-! ### Case equations for `onCellClick` -/

theorem onCellClick_not_near (s : GameState) (i j : ℤ)
    (h : isNearCell s i j = false) :
    onCellClick s i j = (s, false) := by
  unfold onCellClick
  rw [h]
  rfl

theorem onCellClick_pickup (s : GameState) (i j : ℤ)
    (hnear : isNearCell s i j = true) (hh : s.player.holding = none)
    (hc : 0 < getCellValue s i j) :
    onCellClick s i j =
      (setCellValue i j 0
        { s with player := { s.player with holding := some (getCellValue s i j) } },
        decide (WIN ≤ getCellValue s i j)) := by
  unfold onCellClick
  rw [hnear, hh]
  simp only [if_pos hc, if_true]

theorem onCellClick_empty_noop (s : GameState) (i j : ℤ)
    (hnear : isNearCell s i j = true) (hh : s.player.holding = none)
    (hc : ¬ 0 < getCellValue s i j) :
    onCellClick s i j = (s, false) := by
  unfold onCellClick
  rw [hnear, hh]
  simp only [if_neg hc, if_true]

theorem onCellClick_place (s : GameState) (i j v : ℤ)
    (hnear : isNearCell s i j = true) (hh : s.player.holding = some v)
    (hc : getCellValue s i j = 0) :
    onCellClick s i j =
      (setCellValue i j v { s with player := { s.player with holding := none } },
        false) := by
  unfold onCellClick
  rw [hnear, hh]
  simp only [if_pos hc, if_true]

theorem onCellClick_merge (s : GameState) (i j v : ℤ)
    (hnear : isNearCell s i j = true) (hh : s.player.holding = some v)
    (hc : getCellValue s i j = v) (hv : 0 < v) :
    onCellClick s i j =
      (setCellValue i j (getCellValue s i j * 2)
        { s with player := { s.player with holding := none } },
        false) := by
  unfold onCellClick
  rw [hnear, hh]
  have hc0 : ¬ getCellValue s i j = 0 := by rw [hc]; exact fun h0 => absurd (h0 ▸ hv) (lt_irrefl 0)
  have hm : getCellValue s i j = v ∧ 0 < getCellValue s i j := ⟨hc, hc ▸ hv⟩
  simp only [if_neg hc0, if_pos hm, if_true]

theorem onCellClick_mismatch_noop (s : GameState) (i j v : ℤ)
    (hnear : isNearCell s i j = true) (hh : s.player.holding = some v)
    (hc0 : getCellValue s i j ≠ 0)
    (hm : ¬ (getCellValue s i j = v ∧ 0 < getCellValue s i j)) :
    onCellClick s i j = (s, false) := by
  unfold onCellClick
  rw [hnear, hh]
  simp only [if_neg hc0, if_neg hm, if_true]

/-! ### Shape and frame facts for `onCellClick` -/

theorem onCellClick_shape (s : GameState) (i j : ℤ) :
    (onCellClick s i j).1 = s ∨
      ∃ (v : ℤ) (h' : Option ℤ), (onCellClick s i j).1 =
        setCellValue i j v { s with player := { s.player with holding := h' } } := by
  by_cases hnear : isNearCell s i j = true
  · cases hh : s.player.holding with
    | none =>
      by_cases hc : 0 < getCellValue s i j
      · right
        exact ⟨0, some (getCellValue s i j), by
          rw [onCellClick_pickup s i j hnear hh hc]⟩
      · left
        rw [onCellClick_empty_noop s i j hnear hh hc]
    | some v =>
      by_cases hc : getCellValue s i j = 0
      · right
        exact ⟨v, none, by rw [onCellClick_place s i j v hnear hh hc]⟩
      · by_cases hm : getCellValue s i j = v ∧ 0 < getCellValue s i j
        · right
          exact ⟨getCellValue s i j * 2, none, by
            rw [onCellClick_merge s i j v hnear hh hm.1 (hm.1 ▸ hm.2)]⟩
        · left
          rw [onCellClick_mismatch_noop s i j v hnear hh hc hm]
  · left
    rw [onCellClick_not_near s i j (by simpa using hnear)]

theorem onCellClick_player_pos (s : GameState) (i j : ℤ) :
    (onCellClick s i j).1.player.lat = s.player.lat ∧
      (onCellClick s i j).1.player.lng = s.player.lng := by
  rcases onCellClick_shape s i j with h | ⟨v, h', h⟩
  · rw [h]
    exact ⟨rfl, rfl⟩
  · rw [h, setCellValue_player]
    exact ⟨rfl, rfl⟩

theorem onCellClick_other_cells (s : GameState) (i j i' j' : ℤ)
    (h : (i', j') ≠ (i, j)) :
    getCellValue (onCellClick s i j).1 i' j' = getCellValue s i' j' := by
  rcases onCellClick_shape s i j with hs | ⟨v, h', hs⟩
  · rw [hs]
  · rw [hs, getCellValue_setCellValue_other _ _ _ _ _ _ h]
    rfl

theorem isNearCell_of_player_eq (s t : GameState) (i j : ℤ)
    (h1 : t.player.lat = s.player.lat) (h2 : t.player.lng = s.player.lng) :
    isNearCell t i j = isNearCell s i j := by
  unfold isNearCell playerCellId toCellId
  rw [h1, h2]

/-! ### The mutual-exclusion invariant is preserved -/

theorem exclusion_setCellValueO (o : OverrideStore) (i j v : ℤ)
    (h : exclusionInv o) :
    exclusionInv (setCellValueO i j v o) := by
  intro k hk
  unfold setCellValueO at hk ⊢
  by_cases hv : v ≤ 0
  · simp only [if_pos hv] at hk ⊢
    by_cases hkey : k = cellKey i j
    · rw [hkey]
      exact lookupKey_filter_self _ _
    · have hmem : k ∈ o.taken := by
        rcases (mem_addKey _ _ _).mp hk with h1 | h1
        · exact absurd h1 hkey
        · exact h1
      rw [lookupKey_filter_ne _ _ _ hkey]
      exact h k hmem
  · simp only [if_neg hv] at hk ⊢
    have hmem := (mem_filter_ne _ _ _).mp hk
    rw [lookupKey_cons, if_neg (fun hc : cellKey i j = k => hmem.2 hc.symm),
      lookupKey_filter_ne _ _ _ hmem.2]
    exact h k hmem.1

theorem exclusion_applyOps (ops : List ((ℤ × ℤ) × ℤ)) (o : OverrideStore)
    (h : exclusionInv o) :
    exclusionInv (applyOps ops o) := by
  induction ops generalizing o with
  | nil => exact h
  | cons op rest ih =>
    exact ih _ (exclusion_setCellValueO o op.1.1 op.1.2 op.2 h)

/-! ### Query runs and snapshot/restore replay -/

theorem runQueries_getElem (pre post : List (ℤ × ℤ)) (i j : ℤ) :
    (runQueries (pre ++ (i, j) :: post))[pre.length]? = some (tokenAt i j) := by
  induction pre with
  | nil => simp [runQueries]
  | cons q rest ih => simpa [runQueries] using ih

theorem lookupKey_eq_none_iff (x : ℤ × ℤ) (ps : List ((ℤ × ℤ) × ℤ)) :
    lookupKey x ps = none ↔ x ∉ ps.map Prod.fst := by
  induction ps with
  | nil => simp [lookupKey]
  | cons p rest ih =>
    obtain ⟨pk, pv⟩ := p
    rw [lookupKey_cons]
    by_cases hp : pk = x
    · simp [hp]
    · rw [if_neg hp, ih, List.map_cons, List.mem_cons, not_or]
      exact (and_iff_right (fun hc : x = pk => hp hc.symm)).symm

theorem foldEntries_append (l₁ l₂ : List OverrideEntry) (o : OverrideStore) :
    foldEntries (l₁ ++ l₂) o = foldEntries l₂ (foldEntries l₁ o) :=
  List.foldl_append _ _ _ _

theorem phase1_taken (ks : List (ℤ × ℤ)) (o : OverrideStore) (x : ℤ × ℤ) :
    x ∈ (foldEntries (ks.map OverrideEntry.taken) o).taken ↔
      x ∈ ks ∨ x ∈ o.taken := by
  induction ks generalizing o with
  | nil => simp [foldEntries]
  | cons k rest ih =>
    rw [List.map_cons]
    show x ∈ (foldEntries _ (applyEntry (.taken k) o)).taken ↔ _
    rw [ih]
    unfold applyEntry
    rw [mem_addKey, List.mem_cons]
    tauto

theorem phase1_modified (ks : List (ℤ × ℤ)) (o : OverrideStore)
    (h : o.modified = []) :
    (foldEntries (ks.map OverrideEntry.taken) o).modified = [] := by
  induction ks generalizing o with
  | nil => exact h
  | cons k rest ih =>
    rw [List.map_cons]
    show (foldEntries _ (applyEntry (.taken k) o)).modified = []
    exact ih _ (by unfold applyEntry; rw [h]; rfl)

theorem phase2_taken (ps : List ((ℤ × ℤ) × ℤ)) (o : OverrideStore) (x : ℤ × ℤ) :
    x ∈ (foldEntries (ps.map fun p => OverrideEntry.modified p.1 p.2) o).taken ↔
      x ∈ o.taken ∧ x ∉ ps.map Prod.fst := by
  induction ps generalizing o with
  | nil => simp [foldEntries]
  | cons p rest ih =>
    rw [List.map_cons]
    show x ∈ (foldEntries _ (applyEntry (.modified p.1 p.2) o)).taken ↔ _
    rw [ih]
    unfold applyEntry
    rw [mem_filter_ne, List.map_cons, List.mem_cons]
    tauto

theorem phase2_lookup (ps : List ((ℤ × ℤ) × ℤ)) (o : OverrideStore)
    (h : (ps.map Prod.fst).Nodup) (x : ℤ × ℤ) :
    lookupKey x (foldEntries (ps.map fun p => OverrideEntry.modified p.1 p.2) o).modified =
      match lookupKey x ps with
      | some v => some v
      | none => lookupKey x o.modified := by
  induction ps generalizing o with
  | nil => simp [foldEntries, lookupKey]
  | cons p rest ih =>
    obtain ⟨pk, pv⟩ := p
    rw [List.map_cons] at h ⊢
    have hk : pk ∉ rest.map Prod.fst := (List.nodup_cons.mp h).1
    have h' : (rest.map Prod.fst).Nodup := (List.nodup_cons.mp h).2
    show lookupKey x
        (foldEntries _ (applyEntry (.modified pk pv) o)).modified = _
    rw [ih _ h']
    by_cases hx : pk = x
    · subst hx
      have : lookupKey pk rest = none := (lookupKey_eq_none_iff _ _).mpr hk
      rw [this, lookupKey_cons]
      unfold applyEntry
      simp [lookupKey_cons]
    · rw [lookupKey_cons, if_neg hx]
      cases hr : lookupKey x rest with
      | some w => rfl
      | none =>
        unfold applyEntry
        simp only []
        rw [lookupKey_cons, if_neg hx,
          lookupKey_filter_ne _ _ _ (fun hc : x = pk => hx hc.symm)]

/-! ### Claim theorems -/

/-- Claim C1: for every interact event at an in-range cell, with the
single-slot inventory only ever holding positive token values (the
invariant the game maintains: pickups store only positive cell values),
`onCellClick` performs exactly the first matching transition: (1)
empty-handed on a positive cell picks up — holding becomes the cell's
value and the cell is set to 0; (2) holding `v` on an empty cell places —
the cell resolves to `v` and the hand empties; (3) holding `v > 0` on a
cell of value `v` merges — the cell resolves to `v*2` and the hand
empties; (4) otherwise the state is unchanged. -/
theorem interaction_first_matching_transition (s : GameState) (i j : ℤ)
    (hvalid : ∀ v, s.player.holding = some v → 0 < v)
    (hnear : isNearCell s i j = true) :
    (s.player.holding = none → 0 < getCellValue s i j →
      (onCellClick s i j).1.player.holding = some (getCellValue s i j) ∧
      getCellValue (onCellClick s i j).1 i j = 0) ∧
    (∀ v, s.player.holding = some v → getCellValue s i j = 0 →
      getCellValue (onCellClick s i j).1 i j = v ∧
      (onCellClick s i j).1.player.holding = none) ∧
    (∀ v, s.player.holding = some v → 0 < v → getCellValue s i j = v →
      getCellValue (onCellClick s i j).1 i j = v * 2 ∧
      (onCellClick s i j).1.player.holding = none) ∧
    (s.player.holding = none → getCellValue s i j ≤ 0 →
      (onCellClick s i j).1 = s) ∧
    (∀ v, s.player.holding = some v → getCellValue s i j ≠ 0 →
      getCellValue s i j ≠ v → (onCellClick s i j).1 = s) := by
  refine ⟨?_, ?_, ?_, ?_, ?_⟩
  · intro hh hc
    rw [onCellClick_pickup s i j hnear hh hc]
    refine ⟨rfl, ?_⟩
    rw [getCellValue_setCellValue_same]
    simp
  · intro v hh hc
    rw [onCellClick_place s i j v hnear hh hc]
    have hv : 0 < v := hvalid v hh
    refine ⟨?_, rfl⟩
    rw [getCellValue_setCellValue_same, if_neg (not_le.mpr hv)]
  · intro v hh hv hc
    rw [onCellClick_merge s i j v hnear hh hc hv]
    have h2 : ¬ getCellValue s i j * 2 ≤ 0 := by
      rw [hc]
      exact not_le.mpr (by linarith)
    refine ⟨?_, rfl⟩
    rw [getCellValue_setCellValue_same, if_neg h2, hc]
  · intro hh hc
    rw [onCellClick_empty_noop s i j hnear hh (not_lt.mpr hc)]
  · intro v hh hc0 hcv
    rw [onCellClick_mismatch_noop s i j v hnear hh hc0 (fun hand => hcv hand.1)]

/-- Claim C1 witness: the sample state picks up the `2` at cell `(0,0)`. -/
theorem interaction_first_matching_transition_witness :
    (∀ v, sampleState.player.holding = some v → 0 < v) ∧
    isNearCell sampleState 0 0 = true ∧
    ((onCellClick sampleState 0 0).1.player.holding =
        some (getCellValue sampleState 0 0) ∧
      getCellValue (onCellClick sampleState 0 0).1 0 0 = 0) := by
  have hnear : isNearCell sampleState 0 0 = true := by
    norm_num [isNearCell, sampleState, playerCellId, toCellId, CELL, INTERACT_STEPS]
  have hvalid : ∀ v, sampleState.player.holding = some v → 0 < v := by
    intro v hv
    exact absurd hv (by simp [sampleState])
  exact ⟨hvalid, hnear,
    (interaction_first_matching_transition sampleState 0 0 hvalid hnear).1 rfl
      (by decide)⟩

/-- Claim C2: the win alert fires exactly on a pickup that leaves the
player holding a value at least `WIN` (so in particular it fires after
every pickup or merge that leaves `holding ≥ WIN` — a merge always leaves
the hand empty, making that case vacuous — and only then), and a movement
step never fires it. -/
theorem win_notification_characterization (s : GameState) (i j : ℤ) :
    ((onCellClick s i j).2 = true ↔
      (isNearCell s i j = true ∧ s.player.holding = none ∧
        0 < getCellValue s i j ∧ WIN ≤ getCellValue s i j ∧
        (onCellClick s i j).1.player.holding = some (getCellValue s i j))) ∧
    (∀ v, s.player.holding = some v →
      (onCellClick s i j).1.player.holding = none ∨ (onCellClick s i j).1 = s) ∧
    (∀ (t : GameState) (dI dJ : ℤ), (movePlayerCells t dI dJ).2 = false) := by
  refine ⟨?_, ?_, fun t dI dJ => rfl⟩
  · by_cases hnear : isNearCell s i j = true
    · cases hh : s.player.holding with
      | none =>
        by_cases hc : 0 < getCellValue s i j
        · rw [onCellClick_pickup s i j hnear hh hc]
          simp [hnear, hh, hc, setCellValue_player]
        · rw [onCellClick_empty_noop s i j hnear hh hc]
          simp [hc]
      | some v =>
        by_cases hc : getCellValue s i j = 0
        · rw [onCellClick_place s i j v hnear hh hc]
          simp [hh]
        · by_cases hm : getCellValue s i j = v ∧ 0 < getCellValue s i j
          · rw [onCellClick_merge s i j v hnear hh hm.1 (hm.1 ▸ hm.2)]
            simp [hh]
          · rw [onCellClick_mismatch_noop s i j v hnear hh hc hm]
            simp [hh]
    · rw [onCellClick_not_near s i j (by simpa using hnear)]
      simp [hnear]
  · intro v hh
    by_cases hnear : isNearCell s i j = true
    · by_cases hc : getCellValue s i j = 0
      · left
        rw [onCellClick_place s i j v hnear hh hc, setCellValue_player]
      · by_cases hm : getCellValue s i j = v ∧ 0 < getCellValue s i j
        · left
          rw [onCellClick_merge s i j v hnear hh hm.1 (hm.1 ▸ hm.2),
            setCellValue_player]
        · right
          rw [onCellClick_mismatch_noop s i j v hnear hh hc hm]
    · right
      rw [onCellClick_not_near s i j (by simpa using hnear)]

/-- Claim C2 witness: a movement step from the sample state fires no win
alert. -/
theorem win_notification_characterization_witness :
    (movePlayerCells sampleState 1 0).2 = false :=
  (win_notification_characterization sampleState 0 0).2.2 sampleState 1 0

/-- Claim C3 counterexample: the hash of cell `(0,1)` lands in
`[0.55, 0.80)`, where the claim's distribution assigns token value 2, but
the code's `tokenAt` returns 0 (its thresholds are `0.15/0.20/0.22` with
values `2/4/8`, and everything at or above `0.22` is empty). -/
theorem token_distribution_counterexample :
    ((55/100 : ℚ) ≤ luck 0 1 ∧ luck 0 1 < 80/100) ∧ tokenAt 0 1 = 0 := by
  constructor
  · constructor <;> norm_num [luck]
  · norm_num [tokenAt, luck, tokenClassify]

/-- Claim C3 (amended): the intrinsic value is classified from the
unit-interval hash `r` by the cumulative thresholds `[0,0.15) → 2`,
`[0.15,0.20) → 4`, `[0.20,0.22) → 8`, `[0.22,1) → 0 (empty)`; the
intervals are disjoint and exhaustive over `[0,1)`, with increasing token
magnitudes over the first three intervals and the empty outcome on the
last. -/
theorem token_distribution_amended (r : ℚ) (_h0 : 0 ≤ r) (h1 : r < 1) :
    (r < 15/100 → tokenClassify r = 2) ∧
    (15/100 ≤ r → r < 20/100 → tokenClassify r = 4) ∧
    (20/100 ≤ r → r < 22/100 → tokenClassify r = 8) ∧
    (22/100 ≤ r → tokenClassify r = 0) := by
  refine ⟨?_, ?_, ?_, ?_⟩
  · intro h
    rw [tokenClassify, if_pos h]
  · intro ha hb
    rw [tokenClassify, if_neg (not_lt.mpr ha), if_pos hb]
  · intro ha hb
    rw [tokenClassify, if_neg (not_lt.mpr (by linarith)),
      if_neg (not_lt.mpr ha), if_pos hb]
  · intro ha
    rw [tokenClassify, if_neg (not_lt.mpr (by linarith)),
      if_neg (not_lt.mpr (by linarith)), if_neg (not_lt.mpr ha)]

/-- Claim C3 witness: `r = 0.1` lies in `[0, 0.15)` and classifies to 2. -/
theorem token_distribution_amended_witness :
    (0 : ℚ) ≤ 1/10 ∧ (1/10 : ℚ) < 1 ∧ tokenClassify (1/10) = 2 :=
  ⟨by norm_num, by norm_num,
    (token_distribution_amended (1/10) (by norm_num) (by norm_num)).1
      (by norm_num)⟩

/-- Claim C4: after every sequence of `setCellValue` calls from the
initial state, no cell key is simultaneously in the taken set and the
modified map; and each single call clears the other category for its
key — a non-positive value removes the Modified entry, a positive value
removes the Taken entry. -/
theorem taken_modified_mutual_exclusion :
    (∀ (ops : List ((ℤ × ℤ) × ℤ)) (k : ℤ × ℤ),
      k ∈ (applyOps ops initialStore).taken →
        lookupKey k (applyOps ops initialStore).modified = none) ∧
    (∀ (o : OverrideStore) (i j v : ℤ),
      (v ≤ 0 → lookupKey (cellKey i j) (setCellValueO i j v o).modified = none) ∧
      (0 < v → cellKey i j ∉ (setCellValueO i j v o).taken)) := by
  constructor
  · intro ops k hk
    exact exclusion_applyOps ops initialStore
      (fun k' hc => absurd hc (List.not_mem_nil k')) k hk
  · intro o i j v
    constructor
    · intro hv
      unfold setCellValueO
      simp only [if_pos hv]
      exact lookupKey_filter_self _ _
    · intro hv
      unfold setCellValueO
      simp only [if_neg (not_le.mpr hv)]
      intro hmem
      exact ((mem_filter_ne _ _ _).mp hmem).2 rfl

/-- Claim C4 witness: taking cell `(0,0)` leaves it absent from the
modified map. -/
theorem taken_modified_mutual_exclusion_witness :
    ((0, 0) : ℤ × ℤ) ∈ (applyOps [((0, 0), 0)] initialStore).taken ∧
      lookupKey (0, 0) (applyOps [((0, 0), 0)] initialStore).modified = none :=
  ⟨by decide, taken_modified_mutual_exclusion.1 [((0, 0), 0)] (0, 0) (by decide)⟩

/-- Claim C5: an interact event at a cell whose Chebyshev distance from
the player's cell exceeds the interaction radius is silently ignored: the
state (holding, position, every cell) is unchanged and no alert fires. -/
theorem out_of_range_click_noop (s : GameState) (i j : ℤ)
    (h : INTERACT_STEPS < max |i - (playerCellId s).1| |j - (playerCellId s).2|) :
    onCellClick s i j = (s, false) := by
  apply onCellClick_not_near
  rw [isNearCell, decide_eq_false_iff_not]
  rintro ⟨h1, h2⟩
  exact absurd h (not_lt.mpr (max_le h1 h2))

/-- Claim C5 witness: clicking cell `(10, 0)` from the sample state. -/
theorem out_of_range_click_noop_witness :
    INTERACT_STEPS <
        max |10 - (playerCellId sampleState).1| |0 - (playerCellId sampleState).2| ∧
      onCellClick sampleState 10 0 = (sampleState, false) := by
  have h : INTERACT_STEPS <
      max |10 - (playerCellId sampleState).1| |0 - (playerCellId sampleState).2| := by
    norm_num [playerCellId, toCellId, sampleState, CELL, INTERACT_STEPS]
  exact ⟨h, out_of_range_click_noop sampleState 10 0 h⟩

/-- Claim C6: the procedural field is deterministic — in any two runs of
intrinsic-value queries, the query at `(i, j)` returns the same value no
matter what other cells were queried before or after. -/
theorem intrinsic_value_deterministic (pre₁ pre₂ post₁ post₂ : List (ℤ × ℤ))
    (i j : ℤ) :
    (runQueries (pre₁ ++ (i, j) :: post₁))[pre₁.length]? =
      (runQueries (pre₂ ++ (i, j) :: post₂))[pre₂.length]? := by
  rw [runQueries_getElem, runQueries_getElem]

/-- Claim C7: a geolocation reading whose delta from the last stored raw
reading rounds to a zero cell step on both axes is absorbed with no state
change: the whole controller state (player included) is unchanged, and a
later reading is processed against the original reference reading. -/
theorem jitter_absorbed_no_state_change (g : GeoState) (lat lng a b : ℚ)
    (ha : g.lastLat = some a) (hb : g.lastLng = some b)
    (hj1 : jsRound ((lat - a) / CELL) = 0) (hj2 : jsRound ((lng - b) / CELL) = 0) :
    handlePosition g lat lng = g ∧
      ∀ lat₂ lng₂, handlePosition (handlePosition g lat lng) lat₂ lng₂ =
        handlePosition g lat₂ lng₂ := by
  have h1 : handlePosition g lat lng = g := by
    unfold handlePosition
    rw [ha, hb]
    simp [hj1, hj2]
  exact ⟨h1, fun lat₂ lng₂ => by rw [h1]⟩

/-- Claim C7 witness: a 0.3-cell jitter reading is absorbed. -/
theorem jitter_absorbed_no_state_change_witness :
    sampleGeo.lastLat = some 0 ∧ sampleGeo.lastLng = some 0 ∧
    jsRound ((3/100000 - 0 : ℚ) / CELL) = 0 ∧ jsRound ((0 - 0 : ℚ) / CELL) = 0 ∧
    handlePosition sampleGeo (3/100000) 0 = sampleGeo := by
  have hj1 : jsRound ((3/100000 - 0 : ℚ) / CELL) = 0 := by
    norm_num [jsRound, CELL]
  have hj2 : jsRound ((0 - 0 : ℚ) / CELL) = 0 := by
    norm_num [jsRound, CELL]
  exact ⟨rfl, rfl, hj1, hj2,
    (jitter_absorbed_no_state_change sampleGeo (3/100000) 0 0 0 rfl rfl hj1 hj2).1⟩

/-- Claim C8: restoring the entries produced by `snapshotEntries` —
starting from a cleared store — yields a store whose resolve result
equals the original's at every previously-overridden cell (the store's
modified map has one entry per key, as `Map` semantics guarantee). -/
theorem snapshot_restore_round_trip (o : OverrideStore)
    (hnodup : (o.modified.map Prod.fst).Nodup) (i j : ℤ)
    (_hov : overriddenKey o (cellKey i j)) :
    resolve (restoreEntries (snapshotEntries o)) i j = resolve o i j := by
  unfold restoreEntries snapshotEntries
  rw [foldEntries_append]
  have hTmod :
      (foldEntries (o.taken.map OverrideEntry.taken) initialStore).modified = [] :=
    phase1_modified _ _ rfl
  have hTtaken : ∀ x,
      x ∈ (foldEntries (o.taken.map OverrideEntry.taken) initialStore).taken ↔
        x ∈ o.taken := by
    intro x
    rw [phase1_taken]
    simp [initialStore]
  unfold resolve
  rw [phase2_lookup _ _ hnodup]
  cases hl : lookupKey (cellKey i j) o.modified with
  | some v => rfl
  | none =>
    have hnm : cellKey i j ∉ o.modified.map Prod.fst :=
      (lookupKey_eq_none_iff _ _).mp hl
    rw [hTmod]
    simp only [phase2_taken, hTtaken, hnm, not_false_iff, and_true]
    rfl

/-- Claim C8 witness: the sample store (one taken cell, one modified
cell) round-trips at the overridden cell `(0,0)`. -/
theorem snapshot_restore_round_trip_witness :
    (sampleStore.modified.map Prod.fst).Nodup ∧
    overriddenKey sampleStore (cellKey 0 0) ∧
    resolve (restoreEntries (snapshotEntries sampleStore)) 0 0 =
      resolve sampleStore 0 0 :=
  ⟨by decide, Or.inr (by decide),
    snapshot_restore_round_trip sampleStore (by decide) 0 0 (Or.inr (by decide))⟩

/-- Claim C9: an interact event touches at most the clicked cell: the
player's position is unchanged and every other cell resolves to the same
value as before (only holding and the clicked cell may change). -/
theorem interact_frame_effect (s : GameState) (i j : ℤ) :
    (onCellClick s i j).1.player.lat = s.player.lat ∧
    (onCellClick s i j).1.player.lng = s.player.lng ∧
    ∀ i' j', (i', j') ≠ (i, j) →
      getCellValue (onCellClick s i j).1 i' j' = getCellValue s i' j' :=
  ⟨(onCellClick_player_pos s i j).1, (onCellClick_player_pos s i j).2,
    fun i' j' h => onCellClick_other_cells s i j i' j' h⟩

/-- Claim C9 witness: cell `(1,1)` is untouched by a click on `(0,0)`. -/
theorem interact_frame_effect_witness :
    ((1, 1) : ℤ × ℤ) ≠ (0, 0) ∧
      getCellValue (onCellClick sampleState 0 0).1 1 1 =
        getCellValue sampleState 1 1 :=
  ⟨by decide, (interact_frame_effect sampleState 0 0).2.2 1 1 (by decide)⟩

/-- Claim C10: pickup followed by place at the same in-range cell is a
round trip: the cell resolves to its original positive value and the hand
is empty again. -/
theorem pickup_place_round_trip (s : GameState) (i j v : ℤ)
    (hh : s.player.holding = none) (hv : 0 < v)
    (hval : getCellValue s i j = v) (hnear : isNearCell s i j = true) :
    getCellValue (onCellClick (onCellClick s i j).1 i j).1 i j = v ∧
    (onCellClick (onCellClick s i j).1 i j).1.player.holding = none := by
  have hpick := onCellClick_pickup s i j hnear hh (hval ▸ hv)
  have h1hold : (onCellClick s i j).1.player.holding = some v := by
    rw [hpick, setCellValue_player]
    simp [hval]
  have h1val : getCellValue (onCellClick s i j).1 i j = 0 := by
    rw [hpick]
    rw [getCellValue_setCellValue_same]
    simp
  have h1near : isNearCell (onCellClick s i j).1 i j = true := by
    rw [isNearCell_of_player_eq s (onCellClick s i j).1 i j
      (onCellClick_player_pos s i j).1 (onCellClick_player_pos s i j).2, hnear]
  have hplace := onCellClick_place (onCellClick s i j).1 i j v h1near h1hold h1val
  constructor
  · rw [hplace, getCellValue_setCellValue_same, if_neg (not_le.mpr hv)]
  · rw [hplace, setCellValue_player]

/-- Claim C10 witness: picking up and replacing the `2` at cell `(0,0)`. -/
theorem pickup_place_round_trip_witness :
    sampleState.player.holding = none ∧ (0 : ℤ) < 2 ∧
    getCellValue sampleState 0 0 = 2 ∧ isNearCell sampleState 0 0 = true ∧
    (getCellValue (onCellClick (onCellClick sampleState 0 0).1 0 0).1 0 0 = 2 ∧
      (onCellClick (onCellClick sampleState 0 0).1 0 0).1.player.holding = none) := by
  have hnear : isNearCell sampleState 0 0 = true := by
    norm_num [isNearCell, sampleState, playerCellId, toCellId, CELL, INTERACT_STEPS]
  exact ⟨rfl, by decide, rfl, hnear,
    pickup_place_round_trip sampleState 0 0 2 rfl (by decide) rfl hnear⟩
